import Mathlib

/-!
Verification of the personal-finance tracker: a shallow embedding of the
client-side aggregation pipeline (dashboard sums, category rollups, the
six-month series), the loan/goal progress and savings-rate formulas, the
canned advisor responder, the accounts fetcher error path, and the
authentication context.

Numbers stored in entity fields are modelled as exact rationals.  The
JavaScript arithmetic used by the progress formulas can leave the finite
range (Infinity / NaN on zero denominators), so those formulas return a
value of the type JsNum, which is a rational extended with positive
infinity, negative infinity and NaN, with division, multiplication and
Math.min following the IEEE rules for those special values.

Dates only ever enter the aggregation code through getMonth () and
getFullYear (), so a date is modelled as the pair (year, month).
-/

namespace FinanceApp

/-- A JavaScript number relevant to this code base: either a finite value
(modelled exactly as a rational) or one of the non-finite values Infinity,
negative Infinity and NaN that unguarded division can produce. -/
inductive JsNum where
  | fin (q : ℚ)
  | posInf
  | negInf
  | nan
deriving DecidableEq, Repr

/-- Whether a JsNum is a finite number (Number.isFinite). -/
def JsNum.isFinite : JsNum → Bool
  | .fin _ => true
  | _ => false

/-- JavaScript division of two finite values: a nonzero denominator gives the
exact quotient, a zero denominator gives Infinity, negative Infinity or NaN
according to the sign of the numerator. -/
def jsDiv (a b : ℚ) : JsNum :=
  if b = 0 then
    if 0 < a then .posInf else if a < 0 then .negInf else .nan
  else .fin (a / b)

/-- JavaScript multiplication of a possibly non-finite value by a finite
constant, following the IEEE sign rules (with Infinity times zero giving
NaN). -/
def jsMul (x : JsNum) (c : ℚ) : JsNum :=
  match x with
  | .fin a => .fin (a * c)
  | .posInf => if 0 < c then .posInf else if c < 0 then .negInf else .nan
  | .negInf => if 0 < c then .negInf else if c < 0 then .posInf else .nan
  | .nan => .nan

/-- Math.min of a possibly non-finite value and a finite constant: NaN
propagates, Infinity is beaten by the constant, negative Infinity wins. -/
def jsMin (x : JsNum) (c : ℚ) : JsNum :=
  match x with
  | .fin a => .fin (min a c)
  | .posInf => .fin c
  | .negInf => .negInf
  | .nan => .nan

namespace Loans

/-- Loans view calculateProgress: paid = principal - current;
(paid / principal) * 100.  The division is not guarded. -/
def calculateProgress (current principal : ℚ) : JsNum :=
  let paid := principal - current
  jsMul (jsDiv paid principal) 100

end Loans

namespace Goals

/-- Goals view calculateProgress: Math.min ((current / target) * 100, 100).
The division is not guarded. -/
def calculateProgress (current target : ℚ) : JsNum :=
  jsMin (jsMul (jsDiv current target) 100) 100

end Goals

/-- Dashboard savings rate:
monthlyIncome > 0 ? ((monthlyIncome - monthlyExpenses) / monthlyIncome) * 100 : 0. -/
def savingsRate (income expenses : ℚ) : JsNum :=
  if 0 < income then jsMul (jsDiv (income - expenses) income) 100 else .fin 0

/-- A calendar date as the aggregation code observes it: the pair of
getFullYear () and getMonth () (months are 0 to 11 for stored dates). -/
structure MonthDate where
  year : ℤ
  month : ℤ
deriving DecidableEq, Repr

/-- The linear index of a calendar month, used to state chronology. -/
def totalMonths (d : MonthDate) : ℤ := 12 * d.year + d.month

/-- The date denoted by new Date (year, monthIndex, 1): the JavaScript Date
constructor normalises an out-of-range month index into the year. -/
def mkDate (year month : ℤ) : MonthDate :=
  ⟨year + month / 12, month % 12⟩

/-- A transaction row as the dashboard aggregation reads it.  Fields not
used by any aggregation (id, description, account reference) are omitted;
the date is the (year, month) pair observed through getFullYear/getMonth. -/
structure Transaction where
  amount : ℚ
  transaction_type : String
  category : String
  transaction_date : MonthDate
deriving DecidableEq, Repr

/-- Filter to the transactions whose date has the same calendar month and
year as now. -/
def currentMonthTransactions (ts : List Transaction) (now : MonthDate) : List Transaction :=
  ts.filter (fun t =>
    t.transaction_date.month == now.month && t.transaction_date.year == now.year)

/-- Sum of the amount field (reduce with initial value 0). -/
def amountSum (ts : List Transaction) : ℚ :=
  ts.foldl (fun s t => s + t.amount) 0

/-- Sum of amount over the transactions whose transaction_type equals the
given type. -/
def sumByType (ts : List Transaction) (ty : String) : ℚ :=
  amountSum (ts.filter (fun t => t.transaction_type == ty))

/-- Dashboard monthlyIncome, as a function of the fetched transaction list. -/
def monthlyIncome (fetched : List Transaction) (now : MonthDate) : ℚ :=
  sumByType (currentMonthTransactions fetched now) "income"

/-- Dashboard monthlyExpenses, as a function of the fetched transaction list. -/
def monthlyExpenses (fetched : List Transaction) (now : MonthDate) : ℚ :=
  sumByType (currentMonthTransactions fetched now) "expense"

/-- The transaction fetch of loadDashboardData: the record store returns the
rows ordered by transaction_date descending, and the query carries
limit (10), so the dashboard sees only the first ten rows of that order.
The parameter db stands for the ordered rows the store would return. -/
def fetchedTransactions (db : List Transaction) : List Transaction :=
  db.take 10

/-- The monthly income the dashboard actually displays, starting from the
full ordered row set of the store. -/
def dashboardMonthlyIncome (db : List Transaction) (now : MonthDate) : ℚ :=
  monthlyIncome (fetchedTransactions db) now

/-- The monthly expenses the dashboard actually displays, starting from the
full ordered row set of the store. -/
def dashboardMonthlyExpenses (db : List Transaction) (now : MonthDate) : ℚ :=
  monthlyExpenses (fetchedTransactions db) now

/-- One entry of the expensesByCategory accumulator. -/
structure CatTotal where
  category : String
  total : ℚ
deriving DecidableEq, Repr

/-- One step of the expensesByCategory reduce: find the first accumulator
entry with the same category and add the amount to it, otherwise push a new
entry at the end. -/
def upsertCat (t : Transaction) : List CatTotal → List CatTotal
  | [] => [⟨t.category, t.amount⟩]
  | c :: cs =>
    if c.category == t.category then ⟨c.category, c.total + t.amount⟩ :: cs
    else c :: upsertCat t cs

/-- The grouping reduce of expensesByCategory. -/
def groupByCategory (ts : List Transaction) : List CatTotal :=
  ts.foldl (fun acc t => upsertCat t acc) []

/-- Stable insertion into a descending-by-total list: the new element goes
after every element whose total is at least as large.  This realises one
step of Array.prototype.sort with the comparator (a, b) => b.total - a.total,
which the language specification requires to be a stable descending sort. -/
def insertDesc (x : CatTotal) : List CatTotal → List CatTotal
  | [] => [x]
  | y :: ys => if y.total < x.total then x :: y :: ys else y :: insertDesc x ys

/-- Stable descending sort by total, modelling the sort call of
expensesByCategory. -/
def sortByTotalDesc (l : List CatTotal) : List CatTotal :=
  l.foldl (fun acc x => insertDesc x acc) []

/-- The expense transactions of the current month (the input of the
grouping reduce). -/
def expenseTransactions (ts : List Transaction) (now : MonthDate) : List Transaction :=
  (currentMonthTransactions ts now).filter (fun t => t.transaction_type == "expense")

/-- Dashboard expensesByCategory: group the expense transactions of the
current month by category, sort descending by total, keep the first five. -/
def expensesByCategory (ts : List Transaction) (now : MonthDate) : List CatTotal :=
  (sortByTotalDesc (groupByCategory (expenseTransactions ts now))).take 5

/-- Specification-side description of the grouping order: the categories of
a transaction list in order of first encounter, skipping those already seen. -/
def specNewCats (seen : List String) : List Transaction → List String
  | [] => []
  | t :: ts =>
    if t.category ∈ seen then specNewCats seen ts
    else t.category :: specNewCats (t.category :: seen) ts

/-- Specification-side list of categories in first-encountered order. -/
def firstCats (ts : List Transaction) : List String := specNewCats [] ts

/-- Specification-side group sum: total amount of the transactions with the
given category. -/
def specSumForCategory (c : String) (ts : List Transaction) : ℚ :=
  amountSum (ts.filter (fun t => t.category == c))

/-- The total recorded for a category by a grouping accumulator, when present. -/
def totalFor (c : String) (g : List CatTotal) : Option ℚ :=
  (g.find? (fun e => e.category == c)).map (fun e => e.total)

/-- The category column of a grouping accumulator. -/
def catsOf (g : List CatTotal) : List String :=
  g.map (fun e => e.category)

/-- The descending-by-total order used by the category sort. -/
def byTotalDesc (a b : CatTotal) : Prop := b.total ≤ a.total

/-- One entry of the six-month income-versus-expense series.  The source
also renders a month label through toLocaleDateString; the label is a pure
function of the month identity kept here. -/
structure SeriesEntry where
  month : MonthDate
  income : ℚ
  expenses : ℚ
deriving DecidableEq, Repr

/-- The six trailing months: new Date (currentYear, currentMonth - (5 - i), 1)
for i = 0 .. 5. -/
def last6Months (now : MonthDate) : List MonthDate :=
  (List.range 6).map (fun i : ℕ => mkDate now.year (now.month - (5 - (i : ℤ))))

/-- The transactions dated in a given (month, year) bucket. -/
def transactionsInMonth (ts : List Transaction) (m : MonthDate) : List Transaction :=
  ts.filter (fun t =>
    t.transaction_date.month == m.month && t.transaction_date.year == m.year)

/-- Dashboard incomeVsExpenses: one entry per trailing month, with the
income and expense sums over the transactions of that bucket. -/
def incomeVsExpenses (fetched : List Transaction) (now : MonthDate) : List SeriesEntry :=
  (last6Months now).map (fun m =>
    ⟨m, sumByType (transactionsInMonth fetched m) "income",
        sumByType (transactionsInMonth fetched m) "expense"⟩)

/-- The reply chosen by the advisor responder.  Each constructor stands for
the fixed English reply string returned by the corresponding branch of
generateAIResponse; the claims concern only which reply is selected, so the
string contents are abstracted into tags. -/
inductive Reply where
  | budgetReply
  | saveReply
  | debtReply
  | investReply
  | creditScoreReply
  | retireReply
  | emergencyFundReply
  | greetingReply
  | thanksReply
  | fallbackReply
deriving DecidableEq, Repr

/-- Whether the pattern occurs as a contiguous substring, on character
lists. -/
def listContains (pat : List Char) : List Char → Bool
  | [] => pat.isEmpty
  | c :: cs => pat.isPrefixOf (c :: cs) || listContains pat cs

/-- String.prototype.includes: substring containment test. -/
def containsSubstr (s pat : String) : Bool :=
  listContains pat.toList s.toList

/-- The advisor responder generateAIResponse: lowercase the input, then test
the keyword rules in source order and return the reply of the first match,
with a fixed fallback.  The only input is the message, so no conversation
history can influence the result. -/
def generateAIResponse (userMessage : String) : Reply :=
  let lowerMessage := userMessage.toLower
  if containsSubstr lowerMessage "budget" || containsSubstr lowerMessage "spend" then
    .budgetReply
  else if containsSubstr lowerMessage "save" || containsSubstr lowerMessage "saving" then
    .saveReply
  else if containsSubstr lowerMessage "debt" || containsSubstr lowerMessage "loan" then
    .debtReply
  else if containsSubstr lowerMessage "invest" || containsSubstr lowerMessage "stock" then
    .investReply
  else if containsSubstr lowerMessage "credit score" then
    .creditScoreReply
  else if containsSubstr lowerMessage "retire" || containsSubstr lowerMessage "retirement" then
    .retireReply
  else if containsSubstr lowerMessage "emergency fund" then
    .emergencyFundReply
  else if containsSubstr lowerMessage "hello" || containsSubstr lowerMessage "hi"
      || containsSubstr lowerMessage "hey" then
    .greetingReply
  else if containsSubstr lowerMessage "thank" then
    .thanksReply
  else
    .fallbackReply

/-- Specification-side rule table: the keyword groups of the responder in
their fixed priority order, each with its reply. -/
def adviceRules : List (List String × Reply) :=
  [ (["budget", "spend"], .budgetReply)
  , (["save", "saving"], .saveReply)
  , (["debt", "loan"], .debtReply)
  , (["invest", "stock"], .investReply)
  , (["credit score"], .creditScoreReply)
  , (["retire", "retirement"], .retireReply)
  , (["emergency fund"], .emergencyFundReply)
  , (["hello", "hi", "hey"], .greetingReply)
  , (["thank"], .thanksReply) ]

/-- Specification-side interpreter: first matching rule wins, fixed
fallback when no rule matches. -/
def firstMatch (msg : String) : List (List String × Reply) → Reply
  | [] => .fallbackReply
  | (kws, r) :: rest =>
    if kws.any (fun k => containsSubstr msg k) then r else firstMatch msg rest

/-- The authenticated user of AuthContext. -/
structure User where
  id : String
  name : String
deriving DecidableEq, Repr

/-- AuthContext login: setUser with id "1" and the given name. -/
def login (name : String) : Option User := some ⟨"1", name⟩

/-- AuthContext logout: setUser (null). -/
def logout : Option User := none

/-- The operations the authentication context exposes. -/
inductive AuthOp where
  | loginOp (name : String)
  | logoutOp
deriving DecidableEq, Repr

/-- Apply one authentication operation to the user state. -/
def applyAuthOp (s : Option User) : AuthOp → Option User
  | .loginOp n => login n
  | .logoutOp => logout

/-- Run a sequence of authentication operations from the initial null user. -/
def runAuthOps (ops : List AuthOp) : Option User :=
  ops.foldl applyAuthOp none

/-- The identifier every user-scoped fetch filters on: the eq filter on the
user_id column uses user.id. -/
def fetchUserId (u : User) : String := u.id

/-- An account row of the accounts view. -/
structure Account where
  id : String
  account_name : String
  account_type : String
  institution : Option String
  balance : ℚ
  is_manual : Bool
  created_at : String
deriving DecidableEq, Repr

/-- The state the accounts view keeps: its fetched rows, the loading flag,
and the diagnostics written by console.error. -/
structure AccountsViewState where
  accounts : List Account
  loading : Bool
  loggedErrors : List String
deriving DecidableEq, Repr

/-- The accounts view state at mount: empty rows, loading. -/
def initialAccountsView : AccountsViewState := ⟨[], true, []⟩

/-- The loadAccounts fetch: on success set the rows to the data (or empty
when the store returned null); on failure log the error and leave the rows
untouched; either way the finally clause clears the loading flag.  The
result is a total state, so no error propagates to the caller. -/
def loadAccounts (res : Except String (Option (List Account)))
    (s : AccountsViewState) : AccountsViewState :=
  match res with
  | .ok d => { s with accounts := d.getD [], loading := false }
  | .error e => { s with loggedErrors := s.loggedErrors ++ [e], loading := false }

/-- A current-month income transaction of amount 1, used as a failing input. -/
def sampleIncomeTx : Transaction := ⟨1, "income", "Salary", ⟨2025, 9⟩⟩

/-- A current-month expense transaction of amount 1, used as a failing input. -/
def sampleExpenseTx : Transaction := ⟨1, "expense", "Groceries", ⟨2025, 9⟩⟩

/-- The Groceries expense of the end-to-end scenario, dated in the current
month. -/
def groceriesTx (now : MonthDate) : Transaction := ⟨150, "expense", "Groceries", now⟩

/-- The Dining expense of the end-to-end scenario, dated in the current
month. -/
def diningTx (now : MonthDate) : Transaction := ⟨50, "expense", "Dining", now⟩

/-- A concrete account row, used to exhibit the stale-data error path. -/
def sampleAccount : Account := ⟨"a1", "Main Checking", "checking", none, 100, true, "2025-01-01"⟩

theorem totalMonths_mkDate (y m : ℤ) : totalMonths (mkDate y m) = 12 * y + m := by
  unfold totalMonths mkDate
  simp only
  omega

/-- C1: the dashboard fetches the transactions with limit (10) (ordered by
transaction_date descending) and computes the monthly sums from those ten
rows only, while the claim and the spec describe the sum over all of the
transactions of the user.  With eleven current-month income transactions of
amount 1 the dashboard shows 10 where the sum over all transactions is 11,
and likewise for expenses. -/
theorem dashboard_sums_limited_to_ten_rows :
    dashboardMonthlyIncome (List.replicate 11 sampleIncomeTx) ⟨2025, 9⟩ = 10
    ∧ sumByType (currentMonthTransactions (List.replicate 11 sampleIncomeTx) ⟨2025, 9⟩)
        "income" = 11
    ∧ dashboardMonthlyExpenses (List.replicate 11 sampleExpenseTx) ⟨2025, 9⟩ = 10
    ∧ sumByType (currentMonthTransactions (List.replicate 11 sampleExpenseTx) ⟨2025, 9⟩)
        "expense" = 11 := by
  refine ⟨?_, ?_, ?_, ?_⟩ <;>
    norm_num [dashboardMonthlyIncome, dashboardMonthlyExpenses, monthlyIncome,
      monthlyExpenses, fetchedTransactions, currentMonthTransactions, sumByType,
      amountSum, List.replicate, sampleIncomeTx, sampleExpenseTx]

/-- C3: the six-month series has exactly six entries, whose months are the
six trailing calendar months ending at the month of now inclusive, in
chronological order; each entry carries the income and expense sums of its
(month, year) bucket; a month with no transactions yields the entry with
income 0 and expenses 0 rather than being omitted, and the empty transaction
list yields six entries that are all zero. -/
theorem incomeVsExpenses_spec (ts : List Transaction) (now : MonthDate) :
    (incomeVsExpenses ts now).length = 6
    ∧ (incomeVsExpenses ts now).map (fun e => totalMonths e.month) =
        [totalMonths now - 5, totalMonths now - 4, totalMonths now - 3,
         totalMonths now - 2, totalMonths now - 1, totalMonths now]
    ∧ incomeVsExpenses ts now = (last6Months now).map (fun m =>
        ⟨m, sumByType (transactionsInMonth ts m) "income",
            sumByType (transactionsInMonth ts m) "expense"⟩)
    ∧ (∀ e ∈ incomeVsExpenses ts now,
        (∀ t ∈ ts, ¬ (t.transaction_date.month = e.month.month
            ∧ t.transaction_date.year = e.month.year)) →
        e.income = 0 ∧ e.expenses = 0)
    ∧ incomeVsExpenses [] now = (last6Months now).map (fun m => ⟨m, 0, 0⟩) := by
  refine ⟨?_, ?_, rfl, ?_, ?_⟩
  · unfold incomeVsExpenses last6Months
    rw [List.length_map, List.length_map, List.length_range]
  · unfold incomeVsExpenses last6Months
    simp only [List.map_map, List.range_succ, List.range_zero, List.map_append,
      List.map_nil, List.map_cons, List.nil_append, List.cons_append,
      Function.comp_apply, totalMonths, mkDate]
    push_cast
    simp only [List.cons.injEq, and_true]
    omega
  · intro e he hnone
    obtain ⟨m, hm, rfl⟩ := List.mem_map.mp he
    have hempty : transactionsInMonth ts m = [] := by
      apply List.filter_eq_nil_iff.mpr
      intro t ht
      simp only [Bool.and_eq_true, beq_iff_eq, not_and]
      intro h1 h2
      exact hnone t ht ⟨h1, h2⟩
    constructor <;> simp [hempty, sumByType, amountSum]
  · simp [incomeVsExpenses, transactionsInMonth, sumByType, amountSum]

/-- Witness for incomeVsExpenses_spec: the empty list at a concrete month
has six entries, and a concrete entry of it has zero sums. -/
theorem incomeVsExpenses_spec_witness :
    (incomeVsExpenses [] ⟨2025, 9⟩).length = 6
    ∧ ((⟨mkDate 2025 4, 0, 0⟩ : SeriesEntry).income = 0
        ∧ (⟨mkDate 2025 4, 0, 0⟩ : SeriesEntry).expenses = 0) := by
  refine ⟨(incomeVsExpenses_spec [] ⟨2025, 9⟩).1, ?_⟩
  refine (incomeVsExpenses_spec [] ⟨2025, 9⟩).2.2.2.1 ⟨mkDate 2025 4, 0, 0⟩ ?_ ?_
  · rw [(incomeVsExpenses_spec [] ⟨2025, 9⟩).2.2.2.2]
    exact List.mem_map_of_mem _ (by decide)
  · intro t ht
    exact absurd ht (List.not_mem_nil t)

/-- C4 counterexample: the loan repayment progress division is not guarded;
at principal = 0 and current_balance = 8000 the displayed progress is a
non-finite number, refuting the claim that every division is guarded. -/
theorem division_unguarded_cx :
    JsNum.isFinite (Loans.calculateProgress 8000 0) = false := by
  norm_num [Loans.calculateProgress, jsDiv, jsMul, JsNum.isFinite]

/-- C4 (amended): only the savings-rate division is guarded — it returns a
finite value on every input.  The loan progress with principal = 0 is
non-finite for every current balance, and the goal progress with
target_amount = 0 is non-finite whenever current_amount is not positive. -/
theorem division_guard_status (income expenses current curGoal : ℚ) :
    JsNum.isFinite (savingsRate income expenses) = true
    ∧ JsNum.isFinite (Loans.calculateProgress current 0) = false
    ∧ (curGoal ≤ 0 → JsNum.isFinite (Goals.calculateProgress curGoal 0) = false) := by
  refine ⟨?_, ?_, ?_⟩
  · unfold savingsRate
    split
    · rename_i h
      rw [jsDiv, if_neg (ne_of_gt h)]
      simp [jsMul, JsNum.isFinite]
    · simp [JsNum.isFinite]
  · unfold Loans.calculateProgress jsDiv
    simp only [if_pos rfl]
    rcases lt_trichotomy current 0 with h | h | h
    · rw [if_pos (by linarith : (0:ℚ) < 0 - current)]
      norm_num [jsMul, JsNum.isFinite]
    · subst h
      norm_num [jsMul, JsNum.isFinite]
    · rw [if_neg (by linarith : ¬ (0:ℚ) < 0 - current),
        if_pos (by linarith : (0:ℚ) - current < 0)]
      norm_num [jsMul, JsNum.isFinite]
  · intro h
    unfold Goals.calculateProgress jsDiv
    simp only [if_pos rfl]
    rcases lt_or_eq_of_le h with h | h
    · rw [if_neg (by linarith : ¬ (0:ℚ) < curGoal), if_pos h]
      norm_num [jsMul, jsMin, JsNum.isFinite]
    · subst h
      norm_num [jsMul, jsMin, JsNum.isFinite]

/-- Witness for division_guard_status at concrete inputs. -/
theorem division_guard_status_witness :
    JsNum.isFinite (savingsRate 5 3) = true
    ∧ JsNum.isFinite (Loans.calculateProgress 0 0) = false
    ∧ JsNum.isFinite (Goals.calculateProgress 0 0) = false :=
  ⟨(division_guard_status 5 3 0 0).1, (division_guard_status 5 3 0 0).2.1,
   (division_guard_status 5 3 0 0).2.2 (by norm_num)⟩

/-- C5 counterexample: at current_amount = -1 and target_amount = 1 (a
nonzero target) the goal progress is -100, which does not lie in the
interval [0, 100], refuting the displayed-range part of the claim. -/
theorem goalProgress_range_cx :
    Goals.calculateProgress (-1) 1 = JsNum.fin (-100) ∧ ¬ ((0:ℚ) ≤ -100) := by
  constructor
  · norm_num [Goals.calculateProgress, jsDiv, jsMul, jsMin]
  · norm_num

/-- C5 (amended): for every goal with target_amount nonzero the progress
equals min (current / target * 100, 100); when moreover the target is
positive and the current amount nonnegative, that value lies in [0, 100].
The concrete cases 5000 of 10000 and 12000 of 10000 give 50 and 100. -/
theorem goalProgress_spec (current target : ℚ) (h : target ≠ 0) :
    Goals.calculateProgress current target = JsNum.fin (min (current / target * 100) 100)
    ∧ (0 < target → 0 ≤ current →
        0 ≤ min (current / target * 100) 100 ∧ min (current / target * 100) 100 ≤ 100)
    ∧ Goals.calculateProgress 5000 10000 = JsNum.fin 50
    ∧ Goals.calculateProgress 12000 10000 = JsNum.fin 100 := by
  refine ⟨?_, ?_, ?_, ?_⟩
  · rw [Goals.calculateProgress, jsDiv, if_neg h]
    simp [jsMul, jsMin]
  · intro ht hc
    constructor
    · apply le_min
      · positivity
      · norm_num
    · exact min_le_right _ _
  · rw [Goals.calculateProgress, jsDiv, if_neg (by norm_num : (10000:ℚ) ≠ 0)]
    norm_num [jsMul, jsMin]
  · rw [Goals.calculateProgress, jsDiv, if_neg (by norm_num : (10000:ℚ) ≠ 0)]
    norm_num [jsMul, jsMin]

/-- Witness for goalProgress_spec at concrete inputs, with the range
hypotheses discharged. -/
theorem goalProgress_spec_witness :
    Goals.calculateProgress 5000 10000 = JsNum.fin (min ((5000:ℚ) / 10000 * 100) 100)
    ∧ 0 ≤ min ((5000:ℚ) / 10000 * 100) 100
    ∧ Goals.calculateProgress 12000 10000 = JsNum.fin 100 :=
  ⟨(goalProgress_spec 5000 10000 (by norm_num)).1,
   ((goalProgress_spec 5000 10000 (by norm_num)).2.1 (by norm_num) (by norm_num)).1,
   (goalProgress_spec 5000 10000 (by norm_num)).2.2.2⟩

/-- C6: for every loan with nonzero principal the repayment progress equals
(principal - current_balance) / principal * 100; at principal = 10000 and
current_balance = 8000 it is 20. -/
theorem loanProgress_spec (current principal : ℚ) (h : principal ≠ 0) :
    Loans.calculateProgress current principal
      = JsNum.fin ((principal - current) / principal * 100)
    ∧ Loans.calculateProgress 8000 10000 = JsNum.fin 20 := by
  constructor
  · simp only [Loans.calculateProgress]
    rw [jsDiv, if_neg h]
    simp [jsMul]
  · simp only [Loans.calculateProgress]
    rw [jsDiv, if_neg (by norm_num : (10000:ℚ) ≠ 0)]
    norm_num [jsMul]

/-- Witness for loanProgress_spec at the concrete loan of the spec. -/
theorem loanProgress_spec_witness :
    Loans.calculateProgress 8000 10000
      = JsNum.fin (((10000:ℚ) - 8000) / 10000 * 100)
    ∧ Loans.calculateProgress 8000 10000 = JsNum.fin 20 :=
  ⟨(loanProgress_spec 8000 10000 (by norm_num)).1,
   (loanProgress_spec 8000 10000 (by norm_num)).2⟩

/-- C7: the savings rate is (income - expenses) / income * 100 when the
income is positive and exactly 0 otherwise; at income = 0 it is the finite
number 0 for every value of the expenses. -/
theorem savingsRate_spec (income expenses : ℚ) :
    (0 < income →
      savingsRate income expenses = JsNum.fin ((income - expenses) / income * 100))
    ∧ (income ≤ 0 → savingsRate income expenses = JsNum.fin 0)
    ∧ savingsRate 0 expenses = JsNum.fin 0
    ∧ JsNum.isFinite (savingsRate 0 expenses) = true := by
  refine ⟨?_, ?_, ?_, ?_⟩
  · intro h
    rw [savingsRate, if_pos h, jsDiv, if_neg (ne_of_gt h)]
    simp [jsMul]
  · intro h
    rw [savingsRate, if_neg (not_lt_of_le h)]
  · rw [savingsRate, if_neg (by norm_num)]
  · rw [savingsRate, if_neg (by norm_num)]
    rfl

/-- Witness for savingsRate_spec at concrete inputs. -/
theorem savingsRate_spec_witness :
    savingsRate 10 4 = JsNum.fin (((10:ℚ) - 4) / 10 * 100)
    ∧ savingsRate 0 7 = JsNum.fin 0 :=
  ⟨(savingsRate_spec 10 4).1 (by norm_num), (savingsRate_spec 0 7).2.2.1⟩

/-- C9 counterexample: a failed fetch does not reset the collection — from a
state already holding a row, the error path keeps that row, so the view
does not end holding the empty collection. -/
theorem loadAccounts_stale_cx :
    (loadAccounts (Except.error "network failure")
      ⟨[sampleAccount], false, []⟩).accounts ≠ [] := by
  simp [loadAccounts]

/-- C9 (amended): on a failed fetch the error is caught and appended to the
diagnostic log rather than propagated, the loading flag ends false, and the
collection is left unchanged; in particular a failure on the initial load
(where the collection is still empty) ends loading-finished with the empty
collection. -/
theorem loadAccounts_error_spec (e : String) (s : AccountsViewState) :
    loadAccounts (Except.error e) s = ⟨s.accounts, false, s.loggedErrors ++ [e]⟩
    ∧ (loadAccounts (Except.error e) initialAccountsView).accounts = []
    ∧ (loadAccounts (Except.error e) initialAccountsView).loading = false
    ∧ e ∈ (loadAccounts (Except.error e) initialAccountsView).loggedErrors := by
  refine ⟨rfl, rfl, rfl, ?_⟩
  simp [loadAccounts, initialAccountsView]

/-- Helper: the invariant that any present user has identifier "1". -/
def authInv (s : Option FinanceApp.User) : Prop :=
  ∀ u : FinanceApp.User, s = some u → u.id = "1"

theorem authInv_applyAuthOp (s : Option FinanceApp.User) (op : AuthOp)
    (h : authInv s) : authInv (applyAuthOp s op) := by
  cases op with
  | loginOp n =>
    intro u hu
    simp only [applyAuthOp, login, Option.some.injEq] at hu
    rw [← hu]
  | logoutOp =>
    intro u hu
    simp [applyAuthOp, logout] at hu

theorem authInv_foldl (ops : List AuthOp) :
    ∀ s : Option FinanceApp.User, authInv s → authInv (ops.foldl applyAuthOp s) := by
  induction ops with
  | nil => intro s h; exact h
  | cons op rest ih =>
    intro s h
    rw [List.foldl_cons]
    exact ih _ (authInv_applyAuthOp s op h)

/-- C10: login produces the user with identifier "1" and the given name;
every sequence of authentication operations preserves the invariant that a
present user has identifier "1", so the identifier every user-scoped fetch
filters on is the constant "1". -/
theorem auth_user_id_invariant (name : String) (s : Option FinanceApp.User)
    (ops : List AuthOp) (u : FinanceApp.User) :
    applyAuthOp s (AuthOp.loginOp name) = some ⟨"1", name⟩
    ∧ (runAuthOps ops = some u → u.id = "1")
    ∧ (runAuthOps ops = some u → fetchUserId u = "1") := by
  refine ⟨rfl, ?_, ?_⟩
  · intro h
    exact authInv_foldl ops none (fun v hv => by simp at hv) u h
  · intro h
    exact authInv_foldl ops none (fun v hv => by simp at hv) u h

/-- Witness for auth_user_id_invariant after a concrete login. -/
theorem auth_user_id_invariant_witness :
    (⟨"1", "alice"⟩ : FinanceApp.User).id = "1"
    ∧ fetchUserId ⟨"1", "alice"⟩ = "1" :=
  ⟨(auth_user_id_invariant "alice" none [AuthOp.loginOp "alice"] ⟨"1", "alice"⟩).2.1 rfl,
   (auth_user_id_invariant "alice" none [AuthOp.loginOp "alice"] ⟨"1", "alice"⟩).2.2 rfl⟩

theorem catsOf_cons (c : CatTotal) (l : List CatTotal) :
    catsOf (c :: l) = c.category :: catsOf l := rfl

theorem totalFor_cons (x : String) (c : CatTotal) (l : List CatTotal) :
    totalFor x (c :: l) = if c.category == x then some c.total else totalFor x l := by
  by_cases hc : (c.category == x) = true <;> simp [totalFor, List.find?, hc]

theorem foldl_add_amount (l : List Transaction) (a : ℚ) :
    l.foldl (fun s t => s + t.amount) a
      = a + l.foldl (fun s t => s + t.amount) 0 := by
  induction l generalizing a with
  | nil => simp
  | cons t ts ih =>
    rw [List.foldl_cons, List.foldl_cons, ih (a + t.amount), ih (0 + t.amount)]
    ring

theorem amountSum_cons (t : Transaction) (ts : List Transaction) :
    amountSum (t :: ts) = t.amount + amountSum ts := by
  simp only [amountSum, List.foldl_cons]
  rw [foldl_add_amount]
  ring

theorem specSum_of_not_any (c : String) (l : List Transaction)
    (h : l.any (fun t => t.category == c) = false) :
    specSumForCategory c l = 0 := by
  rw [specSumForCategory]
  have hnil : l.filter (fun t => t.category == c) = [] := by
    apply List.filter_eq_nil_iff.mpr
    intro a ha
    exact (List.any_eq_false.mp h) a ha
  rw [hnil]
  rfl

theorem catsOf_upsertCat (t : Transaction) (acc : List CatTotal) :
    catsOf (upsertCat t acc) =
      if t.category ∈ catsOf acc then catsOf acc else catsOf acc ++ [t.category] := by
  induction acc with
  | nil => simp [upsertCat, catsOf]
  | cons c cs ih =>
    by_cases h : c.category = t.category
    · have hmem : t.category ∈ catsOf (c :: cs) := by
        rw [catsOf_cons, h]
        exact List.mem_cons_self _ _
      rw [upsertCat, if_pos (by simp [h]), if_pos hmem, catsOf_cons, catsOf_cons]
    · rw [upsertCat, if_neg (by simp [h]), catsOf_cons, ih]
      by_cases hm : t.category ∈ catsOf cs
      · rw [if_pos hm,
          if_pos (by rw [catsOf_cons]; exact List.mem_cons_of_mem _ hm), catsOf_cons]
      · have hnm : t.category ∉ catsOf (c :: cs) := by
          rw [catsOf_cons]
          intro hx
          rcases List.mem_cons.mp hx with he | hx
          · exact h he.symm
          · exact hm hx
        rw [if_neg hm, if_neg hnm, catsOf_cons, List.cons_append]

theorem totalFor_upsertCat_self (t : Transaction) (acc : List CatTotal) :
    totalFor t.category (upsertCat t acc) =
      some ((totalFor t.category acc).getD 0 + t.amount) := by
  induction acc with
  | nil =>
    rw [upsertCat, totalFor_cons, if_pos (by simp), totalFor]
    simp
  | cons c cs ih =>
    by_cases h : c.category = t.category
    · rw [upsertCat, if_pos (by simp [h]), totalFor_cons, if_pos (by simp [h]),
        totalFor_cons, if_pos (by simp [h])]
      simp
    · rw [upsertCat, if_neg (by simp [h]), totalFor_cons, if_neg (by simp [h]),
        totalFor_cons, if_neg (by simp [h]), ih]

theorem totalFor_upsertCat_other (t : Transaction) (c : String)
    (acc : List CatTotal) (h : c ≠ t.category) :
    totalFor c (upsertCat t acc) = totalFor c acc := by
  induction acc with
  | nil =>
    rw [upsertCat, totalFor_cons, if_neg (by simp; exact fun he => h he.symm)]
  | cons d ds ih =>
    by_cases hd : d.category = t.category
    · rw [upsertCat, if_pos (by simp [hd]), totalFor_cons, totalFor_cons]
      have hdc : ¬ (d.category = c) := fun he => h (he.symm.trans hd)
      simp [hdc]
    · rw [upsertCat, if_neg (by simp [hd]), totalFor_cons, totalFor_cons, ih]

theorem totalFor_foldl_upsert (c : String) (l : List Transaction) :
    ∀ acc : List CatTotal,
      totalFor c (l.foldl (fun a t => upsertCat t a) acc) =
        if l.any (fun t => t.category == c) then
          some ((totalFor c acc).getD 0 + specSumForCategory c l)
        else totalFor c acc := by
  induction l with
  | nil =>
    intro acc
    simp [specSumForCategory]
  | cons t ts ih =>
    intro acc
    rw [List.foldl_cons, ih]
    by_cases hc : t.category = c
    · subst hc
      have hsum : specSumForCategory t.category (t :: ts)
          = t.amount + specSumForCategory t.category ts := by
        rw [specSumForCategory, List.filter_cons, if_pos (by simp), amountSum_cons,
          specSumForCategory]
      rw [totalFor_upsertCat_self]
      by_cases hts : ts.any (fun x => x.category == t.category)
      · rw [if_pos hts, if_pos (by simp [List.any_cons]), hsum]
        simp [add_assoc]
      · rw [if_neg hts, if_pos (by simp [List.any_cons]), hsum,
          specSum_of_not_any _ _ (by simpa using hts)]
        simp
    · have hbeq : (t.category == c) = false := by simp [hc]
      have hsum : specSumForCategory c (t :: ts) = specSumForCategory c ts := by
        rw [specSumForCategory, List.filter_cons, if_neg (by simp [hbeq]),
          specSumForCategory]
      have hany : ((t :: ts).any (fun x => x.category == c))
          = (ts.any (fun x => x.category == c)) := by
        simp [List.any_cons, hbeq]
      rw [totalFor_upsertCat_other t c acc (fun he => hc he.symm), hsum, hany]

theorem totalFor_groupByCategory (c : String) (l : List Transaction) :
    totalFor c (groupByCategory l) =
      if l.any (fun t => t.category == c) then some (specSumForCategory c l)
      else none := by
  rw [groupByCategory, totalFor_foldl_upsert]
  by_cases h : l.any (fun t => t.category == c) <;> simp [h, totalFor]

theorem specNewCats_congr (l : List Transaction) :
    ∀ s1 s2 : List String, (∀ x, x ∈ s1 ↔ x ∈ s2) →
      specNewCats s1 l = specNewCats s2 l := by
  induction l with
  | nil => intro s1 s2 _; rfl
  | cons t ts ih =>
    intro s1 s2 h
    simp only [specNewCats]
    by_cases ht : t.category ∈ s1
    · rw [if_pos ht, if_pos ((h _).mp ht)]
      exact ih s1 s2 h
    · rw [if_neg ht, if_neg (fun hx => ht ((h _).mpr hx))]
      rw [ih (t.category :: s1) (t.category :: s2)
        (by intro x; simp only [List.mem_cons, h x])]

theorem specNewCats_not_mem (l : List Transaction) :
    ∀ seen : List String, ∀ c ∈ specNewCats seen l, c ∉ seen := by
  induction l with
  | nil => intro seen c hc; simp [specNewCats] at hc
  | cons t ts ih =>
    intro seen c hc
    simp only [specNewCats] at hc
    by_cases ht : t.category ∈ seen
    · rw [if_pos ht] at hc
      exact ih seen c hc
    · rw [if_neg ht] at hc
      rcases List.mem_cons.mp hc with rfl | hc
      · exact ht
      · intro hcs
        exact ih (t.category :: seen) c hc (List.mem_cons_of_mem _ hcs)

theorem specNewCats_nodup (l : List Transaction) :
    ∀ seen : List String, (specNewCats seen l).Nodup := by
  induction l with
  | nil => intro seen; simp [specNewCats]
  | cons t ts ih =>
    intro seen
    simp only [specNewCats]
    split
    · exact ih seen
    · rw [List.nodup_cons]
      refine ⟨?_, ih _⟩
      intro hmem
      exact specNewCats_not_mem ts _ _ hmem (List.mem_cons_self _ _)

theorem catsOf_foldl_upsert (l : List Transaction) :
    ∀ acc : List CatTotal,
      catsOf (l.foldl (fun a t => upsertCat t a) acc) =
        catsOf acc ++ specNewCats (catsOf acc) l := by
  induction l with
  | nil => intro acc; simp [specNewCats]
  | cons t ts ih =>
    intro acc
    rw [List.foldl_cons, ih, catsOf_upsertCat]
    simp only [specNewCats]
    by_cases h : t.category ∈ catsOf acc
    · rw [if_pos h, if_pos h]
    · have hcongr := specNewCats_congr ts (catsOf acc ++ [t.category])
        (t.category :: catsOf acc) (by intro x; simp [or_comm])
      rw [if_neg h, if_neg h, hcongr]
      simp

theorem catsOf_groupByCategory (l : List Transaction) :
    catsOf (groupByCategory l) = firstCats l := by
  rw [groupByCategory, catsOf_foldl_upsert]
  simp [catsOf, firstCats]

theorem mem_insertDesc (x y : CatTotal) (l : List CatTotal) :
    y ∈ insertDesc x l ↔ y = x ∨ y ∈ l := by
  induction l with
  | nil => simp [insertDesc]
  | cons z zs ih =>
    rw [insertDesc]
    split
    · simp [List.mem_cons]
    · simp only [List.mem_cons, ih]
      tauto

theorem sorted_insertDesc (x : CatTotal) (l : List CatTotal)
    (h : List.Sorted byTotalDesc l) : List.Sorted byTotalDesc (insertDesc x l) := by
  induction l with
  | nil => simp [insertDesc]
  | cons y ys ih =>
    rw [List.sorted_cons] at h
    obtain ⟨hy, hys⟩ := h
    rw [insertDesc]
    split
    · rename_i hlt
      rw [List.sorted_cons]
      refine ⟨?_, ?_⟩
      · intro b hb
        rcases List.mem_cons.mp hb with rfl | hb
        · exact le_of_lt hlt
        · exact le_trans (hy b hb) (le_of_lt hlt)
      · rw [List.sorted_cons]
        exact ⟨hy, hys⟩
    · rename_i hge
      rw [List.sorted_cons]
      refine ⟨?_, ih hys⟩
      intro b hb
      rcases (mem_insertDesc x b ys).mp hb with rfl | hb
      · exact le_of_not_lt hge
      · exact hy b hb

theorem sorted_foldl_insertDesc (l : List CatTotal) :
    ∀ acc : List CatTotal, List.Sorted byTotalDesc acc →
      List.Sorted byTotalDesc (l.foldl (fun a x => insertDesc x a) acc) := by
  induction l with
  | nil => intro acc h; exact h
  | cons x xs ih =>
    intro acc h
    rw [List.foldl_cons]
    exact ih _ (sorted_insertDesc x acc h)

theorem sorted_sortByTotalDesc (l : List CatTotal) :
    List.Sorted byTotalDesc (sortByTotalDesc l) :=
  sorted_foldl_insertDesc l [] (by simp)

theorem filter_insertDesc (v : ℚ) (x : CatTotal) (l : List CatTotal)
    (h : List.Sorted byTotalDesc l) :
    (insertDesc x l).filter (fun e => e.total == v) =
      if x.total == v then l.filter (fun e => e.total == v) ++ [x]
      else l.filter (fun e => e.total == v) := by
  induction l with
  | nil =>
    rw [insertDesc]
    by_cases hx : x.total = v <;> simp [List.filter_cons, hx]
  | cons y ys ih =>
    rw [List.sorted_cons] at h
    obtain ⟨hy, hys⟩ := h
    rw [insertDesc]
    split
    · rename_i hlt
      by_cases hx : x.total = v
      · have hfil : (y :: ys).filter (fun e => e.total == v) = [] := by
          apply List.filter_eq_nil_iff.mpr
          intro a ha
          simp only [beq_iff_eq]
          rcases List.mem_cons.mp ha with rfl | ha
          · exact fun hav => absurd (hav.trans hx.symm) (ne_of_lt hlt)
          · intro hav
            have hle := hy a ha
            have hav2 : a.total < x.total := lt_of_le_of_lt hle hlt
            exact absurd (hav.trans hx.symm) (ne_of_lt hav2)
        simp [List.filter_cons, hx, hfil]
      · simp [List.filter_cons, hx]
    · rename_i hge
      by_cases hx : x.total = v <;> by_cases hyv : y.total = v <;>
        simp [List.filter_cons, hx, hyv, ih hys]

theorem filter_foldl_insertDesc (v : ℚ) (l : List CatTotal) :
    ∀ acc : List CatTotal, List.Sorted byTotalDesc acc →
      (l.foldl (fun a x => insertDesc x a) acc).filter (fun e => e.total == v) =
        acc.filter (fun e => e.total == v) ++ l.filter (fun e => e.total == v) := by
  induction l with
  | nil =>
    intro acc _
    simp
  | cons x xs ih =>
    intro acc h
    rw [List.foldl_cons, ih _ (sorted_insertDesc x acc h), filter_insertDesc v x acc h]
    by_cases hx : x.total = v <;> simp [hx, List.filter_cons]

theorem sortByTotalDesc_filter (v : ℚ) (l : List CatTotal) :
    (sortByTotalDesc l).filter (fun e => e.total == v)
      = l.filter (fun e => e.total == v) := by
  rw [sortByTotalDesc, filter_foldl_insertDesc v l [] (by simp)]
  simp

/-- C2: expensesByCategory groups the current-month expense transactions by
category with the group totals being the per-category amount sums, keeps the
categories in first-encountered order with no duplicates, sorts descending
by total with a stable sort (the entries of any fixed total keep their
grouped, i.e. first-encountered, order), truncates to at most five entries;
the empty transaction list yields the empty result and the two-transaction
scenario Groceries 150 then Dining 50 yields exactly those two entries in
that order. -/
theorem topCategories_spec (ts : List Transaction) (now : MonthDate)
    (c : String) (v : ℚ) :
    catsOf (groupByCategory (expenseTransactions ts now))
        = firstCats (expenseTransactions ts now)
    ∧ (firstCats (expenseTransactions ts now)).Nodup
    ∧ totalFor c (groupByCategory (expenseTransactions ts now)) =
        (if (expenseTransactions ts now).any (fun t => t.category == c) then
          some (specSumForCategory c (expenseTransactions ts now)) else none)
    ∧ List.Sorted byTotalDesc (sortByTotalDesc (groupByCategory (expenseTransactions ts now)))
    ∧ (sortByTotalDesc (groupByCategory (expenseTransactions ts now))).filter
          (fun e => e.total == v)
        = (groupByCategory (expenseTransactions ts now)).filter (fun e => e.total == v)
    ∧ expensesByCategory ts now
        = (sortByTotalDesc (groupByCategory (expenseTransactions ts now))).take 5
    ∧ (expensesByCategory ts now).length ≤ 5
    ∧ expensesByCategory [] now = []
    ∧ expensesByCategory [groceriesTx now, diningTx now] now
        = [⟨"Groceries", 150⟩, ⟨"Dining", 50⟩] := by
  refine ⟨catsOf_groupByCategory _, specNewCats_nodup _ _,
    totalFor_groupByCategory c _, sorted_sortByTotalDesc _,
    sortByTotalDesc_filter v _, rfl, ?_, ?_, ?_⟩
  · rw [expensesByCategory]
    exact List.length_take_le 5 _
  · simp [expensesByCategory, expenseTransactions, currentMonthTransactions,
      groupByCategory, sortByTotalDesc]
  · have hgd : ¬ ("Groceries" = "Dining") := by decide
    norm_num [expensesByCategory, expenseTransactions, currentMonthTransactions,
      groceriesTx, diningTx, groupByCategory, upsertCat, sortByTotalDesc, insertDesc,
      hgd]

/-- C8: the advisor responder equals the interpreter that walks the fixed
rule table in priority order over the lowercase-normalised input and
returns the reply of the first matching keyword group, with the fixed
fallback when no rule matches.  The responder is a pure function of the
message alone, so two calls with the same input return the same reply
whatever conversation history preceded them. -/
theorem generateAIResponse_spec (userMessage : String) :
    generateAIResponse userMessage = firstMatch userMessage.toLower adviceRules := by
  simp only [generateAIResponse, firstMatch, adviceRules, List.any_cons,
    List.any_nil, Bool.or_false, Bool.or_assoc]

end FinanceApp
